import Mathlib

/-!
Shallow embedding of the clashtui-cpp daemon core: the subscription-profile
store (ProfileManager), the process supervisor (ProcessManager) and the
IPC command dispatcher (Daemon::handle_command), together with proofs of
the specified properties.

Modelling conventions:
* the profile metadata document (profiles.yaml) is modelled as the list of
  six-field records it serializes (PMState.metadata);
* the profiles directory is modelled as an association list from filename
  to file content (PMState.files);
* the active-profile pointer of the daemon configuration is PMState.active_profile;
* external effects (HTTP download, filesystem write/rename success, fork,
  kill/waitpid observations, wall-clock timestamp, libc timestamp parsing)
  are supplied by an explicit environment (Env), one field per effect,
  so every control path of the C++ code is representable.
-/

namespace ClashTui

/-- Result of Subscription::download (subscription.hpp). -/
structure DownloadResult where
  success : Bool
  error : String
  content : String
deriving Repr, DecidableEq

/-- ProfileInfo from core/profile_manager.hpp: one catalog entry as held
in memory (is_active is derived on load, not persisted). -/
structure ProfileInfo where
  name : String
  filename : String
  source_url : String
  last_updated : String
  auto_update : Bool
  update_interval_hours : Int
  is_active : Bool
deriving Repr, DecidableEq

/-- One record of the persisted metadata document: exactly the six fields
that ProfileManager::save_metadata emits per entry. -/
structure MetaRecord where
  name : String
  filename : String
  source_url : String
  last_updated : String
  auto_update : Bool
  update_interval_hours : Int
deriving Repr, DecidableEq

/-- Serialization of one entry (the body of the emitter loop in
ProfileManager::save_metadata): only the six persisted fields are written. -/
def encodeProfile (p : ProfileInfo) : MetaRecord :=
  ⟨p.name, p.filename, p.source_url, p.last_updated, p.auto_update,
   p.update_interval_hours⟩

/-- Deserialization of one entry (the body of the loop in
ProfileManager::load_metadata): the six fields are read back and is_active
is recomputed from the active-profile pointer of the configuration. -/
def decodeProfile (active : String) (r : MetaRecord) : ProfileInfo :=
  ⟨r.name, r.filename, r.source_url, r.last_updated, r.auto_update,
   r.update_interval_hours, r.name == active⟩

/-- The state the ProfileManager operates on: the parsed content of
profiles.yaml (empty list when the file is absent), the files present in
the profiles directory (filename, content), and the active-profile pointer
stored in the daemon configuration. -/
structure PMState where
  metadata : List MetaRecord
  files : List (String × String)
  active_profile : String
deriving Repr, DecidableEq

/-- Environment of external effects, one field per C++ effect:
download is Subscription::download, now is now_timestamp(), the Bool
fields record whether the corresponding filesystem / process primitive
succeeds, alive models a kill(pid, 0) == 0 probe. -/
structure Env where
  download : String → DownloadResult
  now : String
  dir_ok : Bool
  mkdir_ok : Bool
  save_file_ok : Bool
  save_meta_ok : Bool
  config_save_ok : Bool
  fork_ok : Bool
  new_pid : Int
  alive : Int → Bool
  kill_term_ok : Bool
  graceful_exit : Bool
  reload_ok : Bool
  api_ready : Bool

namespace ProfileManager

/-- Character-level body of ProfileManager::sanitize_filename: alphanumeric
characters and the two safe punctuation characters are kept, a space becomes
an underscore, every other character is skipped. -/
def sanitize_chars : List Char → List Char
  | [] => []
  | c :: rest =>
    if c.isAlphanum || c == '-' || c == '_' then c :: sanitize_chars rest
    else if c == ' ' then '_' :: sanitize_chars rest
    else sanitize_chars rest

/-- ProfileManager::sanitize_filename: filter the name character by
character; an empty result falls back to the placeholder. -/
def sanitize_filename (name : String) : String :=
  let r := sanitize_chars name.data
  if r.isEmpty then "profile" else String.mk r

/-- ProfileManager::load_metadata: decode each persisted record, computing
is_active against the stored active-profile pointer. -/
def load_metadata (st : PMState) : List ProfileInfo :=
  st.metadata.map (decodeProfile st.active_profile)

/-- ProfileManager::save_metadata: fails when no profiles directory can be
determined or when the filesystem write/rename fails; on success the
metadata document is replaced wholly by the encoded sequence. -/
def save_metadata (env : Env) (st : PMState) (ps : List ProfileInfo) :
    Bool × PMState :=
  if !env.dir_ok then (false, st)
  else if env.save_meta_ok then
    (true, { st with metadata := ps.map encodeProfile })
  else (false, st)

/-- ProfileManager::list_profiles simply reloads the metadata. -/
def list_profiles (st : PMState) : List ProfileInfo :=
  load_metadata st

/-- fs::exists on a file of the profiles directory. -/
def fileExists (st : PMState) (f : String) : Bool :=
  st.files.any (fun kv => kv.1 == f)

/-- Subscription::save_to_file on a file of the profiles directory:
replaces the content stored under the filename. -/
def writeFile (files : List (String × String)) (f content : String) :
    List (String × String) :=
  (f, content) :: files.filter (fun kv => !(kv.1 == f))

/-- fs::remove on a file of the profiles directory. -/
def removeFile (files : List (String × String)) (f : String) :
    List (String × String) :=
  files.filter (fun kv => !(kv.1 == f))

/-- Result type of ProfileManager::add_profile. -/
structure AddResult where
  success : Bool
  error : String
deriving Repr, DecidableEq

/-- ProfileManager::add_profile, branch for branch: empty-name check,
empty-url check, duplicate check against the loaded catalog, download,
directory resolution and creation, profile file write, metadata append
and save. -/
def add_profile (env : Env) (st : PMState) (name url : String) :
    AddResult × PMState :=
  if name == "" then (⟨false, "Profile name cannot be empty"⟩, st)
  else if url == "" then (⟨false, "URL cannot be empty"⟩, st)
  else
    let existing := load_metadata st
    if existing.any (fun p => p.name == name) then
      (⟨false, "Profile already exists: " ++ name⟩, st)
    else
      let dl := env.download url
      if !dl.success then (⟨false, dl.error⟩, st)
      else if !env.dir_ok then
        (⟨false, "Cannot determine profiles directory"⟩, st)
      else if !env.mkdir_ok then
        (⟨false, "Cannot create profiles directory"⟩, st)
      else
        let filename := sanitize_filename name ++ ".yaml"
        if !env.save_file_ok then
          (⟨false, "Failed to save profile file"⟩, st)
        else
          let st1 := { st with files := writeFile st.files filename dl.content }
          let info : ProfileInfo := ⟨name, filename, url, env.now, true, 24, false⟩
          match save_metadata env st1 (existing ++ [info]) with
          | (true, st2) => (⟨true, ""⟩, st2)
          | (false, st2) => (⟨false, "Failed to save profile metadata"⟩, st2)

/-- Result type of ProfileManager::update_profile. -/
structure UpdateResult where
  success : Bool
  error : String
  was_active : Bool
deriving Repr, DecidableEq

/-- In-place mutation it->last_updated = now_timestamp() on the first
catalog entry with the given name (the entry found by find_if). -/
def bumpLastUpdated (name ts : String) : List ProfileInfo → List ProfileInfo
  | [] => []
  | p :: rest =>
    if p.name == name then { p with last_updated := ts } :: rest
    else p :: bumpLastUpdated name ts rest

/-- ProfileManager::update_profile: records whether the profile was the
active one, finds the entry, re-downloads from its stored source URL,
overwrites its file, bumps last_updated and saves the metadata. -/
def update_profile (env : Env) (st : PMState) (name : String) :
    UpdateResult × PMState :=
  let was_active := name == st.active_profile
  let profiles := load_metadata st
  match profiles.find? (fun p => p.name == name) with
  | none => (⟨false, "Profile not found: " ++ name, was_active⟩, st)
  | some p =>
    let dl := env.download p.source_url
    if !dl.success then (⟨false, dl.error, was_active⟩, st)
    else if !env.save_file_ok then
      (⟨false, "Failed to save profile file", was_active⟩, st)
    else
      let st1 := { st with files := writeFile st.files p.filename dl.content }
      match save_metadata env st1 (bumpLastUpdated name env.now profiles) with
      | (true, st2) => (⟨true, "", was_active⟩, st2)
      | (false, st2) => (⟨false, "Failed to save metadata", was_active⟩, st2)

/-- ProfileManager::delete_profile: finds the entry, removes its file
(best-effort; in this model the removal succeeds), erases the entry,
saves the metadata with the result discarded, and clears the active
pointer when it referenced the deleted profile. -/
def delete_profile (env : Env) (st : PMState) (name : String) :
    Bool × PMState :=
  let profiles := load_metadata st
  match profiles.find? (fun p => p.name == name) with
  | none => (false, st)
  | some p =>
    let st1 := { st with files := removeFile st.files p.filename }
    let remaining := profiles.eraseP (fun q => q.name == name)
    let st2 := (save_metadata env st1 remaining).2
    if st2.active_profile == name then
      (true, { st2 with active_profile := "" })
    else (true, st2)

/-- ProfileManager::switch_active: the entry must exist in the catalog and
its file must exist on disk before the active pointer is mutated; the new
pointer is then persisted by Config::save. -/
def switch_active (env : Env) (st : PMState) (name : String) :
    Bool × PMState :=
  let profiles := load_metadata st
  match profiles.find? (fun p => p.name == name) with
  | none => (false, st)
  | some p =>
    if !fileExists st p.filename then (false, st)
    else (env.config_save_ok, { st with active_profile := name })

/-- ProfileManager::active_profile_name. -/
def active_profile_name (st : PMState) : String :=
  st.active_profile

/-- Loop body of ProfileManager::profiles_due_for_update.  The libc pair
get_time (format string of now_timestamp) plus mktime is abstracted as a
parse function to epoch seconds; difftime(now, last) / 3600.0 compared
against the integer interval is exactly the integer comparison
now - last >= 3600 * interval. -/
def dueLoop (parseTime : String → Option Int) (now : Int) :
    List ProfileInfo → List String
  | [] => []
  | p :: rest =>
    if !p.auto_update || p.source_url == "" then dueLoop parseTime now rest
    else
      match parseTime p.last_updated with
      | none => p.name :: dueLoop parseTime now rest
      | some last =>
        if 3600 * p.update_interval_hours ≤ now - last then
          p.name :: dueLoop parseTime now rest
        else dueLoop parseTime now rest

/-- ProfileManager::profiles_due_for_update. -/
def profiles_due_for_update (parseTime : String → Option Int) (now : Int)
    (st : PMState) : List String :=
  dueLoop parseTime now (load_metadata st)

end ProfileManager

namespace ProcessManager

/-- State of the process supervisor (daemon/process_manager): the tracked
child pid (-1 when none), the remembered binary and arguments, and the
three flags. -/
structure ProcState where
  child_pid : Int := -1
  binary_path : String := ""
  args : List String := []
  stop_requested : Bool := false
  monitor_running : Bool := false
  auto_restart : Bool := false
deriving Repr, DecidableEq

/-- ProcessManager::is_running: a pid is tracked and a signal-zero probe
(kill(pid, 0) == 0, given by the environment) confirms the process exists. -/
def is_running (env : Env) (st : ProcState) : Bool :=
  if st.child_pid ≤ 0 then false else env.alive st.child_pid

/-- ProcessManager::stop, branch for branch: stop_requested is set; when a
child pid is tracked, SIGTERM is sent and the child is polled for up to the
grace window (env.graceful_exit), falling back to SIGKILL plus a blocking
reap; in every branch the pid ends cleared and the monitor stopped, and the
function returns true. -/
def stop (env : Env) (st : ProcState) : Bool × ProcState :=
  let st := { st with stop_requested := true }
  if st.child_pid > 0 then
    if env.kill_term_ok then
      if env.graceful_exit then
        (true, { st with child_pid := -1, monitor_running := false })
      else
        (true, { st with child_pid := -1, monitor_running := false })
    else
      (true, { st with child_pid := -1, monitor_running := false })
  else
    (true, { st with monitor_running := false })

/-- ProcessManager::do_start: fork (success given by the environment) and
record the child pid in the parent. -/
def do_start (env : Env) (st : ProcState) : Bool × ProcState :=
  if env.fork_ok then (true, { st with child_pid := env.new_pid })
  else (false, st)

/-- ProcessManager::start: stop any running instance, remember the binary
and arguments, clear stop_requested, fork, and launch the monitor. -/
def start (env : Env) (st : ProcState) (binary : String)
    (args : List String) : Bool × ProcState :=
  let st := if is_running env st then (stop env st).2 else st
  let st := { st with binary_path := binary, args := args,
                      stop_requested := false }
  match do_start env st with
  | (false, st1) => (false, st1)
  | (true, st1) => (true, { st1 with monitor_running := true })

/-- ProcessManager::restart: stop, clear stop_requested, fork again and
relaunch the monitor. -/
def restart (env : Env) (st : ProcState) : Bool × ProcState :=
  let st := (stop env st).2
  let st := { st with stop_requested := false }
  match do_start env st with
  | (false, st1) => (false, st1)
  | (true, st1) => (true, { st1 with monitor_running := true })

end ProcessManager

/-- JSON values, as manipulated by the daemon via nlohmann::json. -/
inductive Json where
  | null
  | bool (b : Bool)
  | num (n : Int)
  | str (s : String)
  | arr (elems : List Json)
  | obj (fields : List (String × Json))

namespace Daemon

open ProfileManager ProcessManager

/-- State touched by Daemon::handle_command: the profile store, the process
supervisor, and the configured mihomo binary and config-directory paths. -/
structure DaemonState where
  pm : PMState
  proc : ProcState
  mihomo_binary : String
  mihomo_config_dir : String
deriving Repr, DecidableEq

/-- nlohmann req.value(key, default) specialised to strings: the default
when the key is absent, the string when present as a string, and a thrown
type error (modelled as Except.error, caught by the try/catch of the handler)
when the key maps to a non-string or the request is not an object. -/
def jgetStr (j : Json) (key dflt : String) : Except String String :=
  match j with
  | .obj fields =>
    match fields.lookup key with
    | some (.str s) => .ok s
    | some _ => .error "type must be string, but is another type"
    | none => .ok dflt
  | _ => .error "cannot use value() with this type"

/-- Serialization of one catalog entry in the profile_list handler. -/
def profileJson (p : ProfileInfo) : Json :=
  .obj [("name", .str p.name), ("filename", .str p.filename),
        ("source_url", .str p.source_url),
        ("last_updated", .str p.last_updated),
        ("auto_update", .bool p.auto_update),
        ("update_interval_hours", .num p.update_interval_hours),
        ("is_active", .bool p.is_active)]

/-- Daemon::reload_mihomo: deploys the active profile over the mihomo
configuration path and asks the control API to reload; it does not touch
the profile store or supervisor state, and every caller inside
handle_command discards its result. -/
def reload_mihomo (env : Env) : Bool :=
  env.reload_ok

/-- Daemon::wait_for_mihomo: polls the control API for readiness; its
result is discarded by every caller inside handle_command. -/
def wait_for_mihomo (env : Env) : Bool :=
  env.api_ready

/-- The command names the dispatcher distinguishes. -/
inductive Cmd where
  | status
  | profile_list
  | profile_add
  | profile_update
  | profile_delete
  | profile_switch
  | mihomo_start
  | mihomo_stop
  | mihomo_restart
  | unknown
deriving Repr, DecidableEq

/-- The if/else-if chain of string comparisons in Daemon::handle_command,
in source order, with the fall-through mapped to unknown. -/
def parseCmd (cmd : String) : Cmd :=
  if cmd == "status" then .status
  else if cmd == "profile_list" then .profile_list
  else if cmd == "profile_add" then .profile_add
  else if cmd == "profile_update" then .profile_update
  else if cmd == "profile_delete" then .profile_delete
  else if cmd == "profile_switch" then .profile_switch
  else if cmd == "mihomo_start" then .mihomo_start
  else if cmd == "mihomo_stop" then .mihomo_stop
  else if cmd == "mihomo_restart" then .mihomo_restart
  else .unknown

/-- Body of the try block of Daemon::handle_command: dispatch on the cmd
string; exceptions thrown by the JSON accessors propagate as Except.error
(matched out explicitly, exactly the exception flow of the C++ code). -/
def handle_inner (env : Env) (st : DaemonState) (req : Json) :
    Except String (Json × DaemonState) :=
  match jgetStr req "cmd" "" with
  | .error e => .error e
  | .ok cmd =>
    match parseCmd cmd with
    | .status =>
      .ok (.obj [("ok", .bool true),
                 ("data", .obj [("mihomo_running", .bool (is_running env st.proc)),
                                ("mihomo_pid", .num st.proc.child_pid),
                                ("active_profile", .str (active_profile_name st.pm))])],
           st)
    | .profile_list =>
      .ok (.obj [("ok", .bool true),
                 ("data", .arr ((list_profiles st.pm).map profileJson))], st)
    | .profile_add =>
      match jgetStr req "name" "", jgetStr req "url" "" with
      | .error e, _ => .error e
      | .ok _, .error e => .error e
      | .ok name, .ok url =>
        match add_profile env st.pm name url with
        | (r, pm1) =>
          if r.success then
            .ok (.obj [("ok", .bool true)], { st with pm := pm1 })
          else .ok (.obj [("ok", .bool false), ("error", .str r.error)],
                    { st with pm := pm1 })
    | .profile_update =>
      match jgetStr req "name" "" with
      | .error e => .error e
      | .ok name =>
        match update_profile env st.pm name with
        | (r, pm1) =>
          if r.success then
            let _ := if r.was_active then reload_mihomo env else true
            .ok (.obj [("ok", .bool true)], { st with pm := pm1 })
          else .ok (.obj [("ok", .bool false), ("error", .str r.error)],
                    { st with pm := pm1 })
    | .profile_delete =>
      match jgetStr req "name" "" with
      | .error e => .error e
      | .ok name =>
        match delete_profile env st.pm name with
        | (ok, pm1) =>
          if ok then .ok (.obj [("ok", .bool true)], { st with pm := pm1 })
          else .ok (.obj [("ok", .bool false),
                          ("error", .str "Failed to delete profile")],
                    { st with pm := pm1 })
    | .profile_switch =>
      match jgetStr req "name" "" with
      | .error e => .error e
      | .ok name =>
        match switch_active env st.pm name with
        | (ok, pm1) =>
          if ok then
            let _ := reload_mihomo env
            .ok (.obj [("ok", .bool true)], { st with pm := pm1 })
          else .ok (.obj [("ok", .bool false),
                          ("error", .str "Failed to switch profile")],
                    { st with pm := pm1 })
    | .mihomo_start =>
      match start env st.proc st.mihomo_binary ["-d", st.mihomo_config_dir] with
      | (ok, proc1) =>
        if ok then
          let _ := wait_for_mihomo env
          .ok (.obj [("ok", .bool true)], { st with proc := proc1 })
        else .ok (.obj [("ok", .bool false),
                        ("error", .str "Failed to start mihomo")],
                  { st with proc := proc1 })
    | .mihomo_stop =>
      match stop env st.proc with
      | (ok, proc1) =>
        if ok then .ok (.obj [("ok", .bool true)], { st with proc := proc1 })
        else .ok (.obj [("ok", .bool false),
                        ("error", .str "Failed to stop mihomo")],
                  { st with proc := proc1 })
    | .mihomo_restart =>
      match restart env st.proc with
      | (ok, proc1) =>
        if ok then
          let _ := wait_for_mihomo env
          let _ := reload_mihomo env
          .ok (.obj [("ok", .bool true)], { st with proc := proc1 })
        else .ok (.obj [("ok", .bool false),
                        ("error", .str "Failed to restart mihomo")],
                  { st with proc := proc1 })
    | .unknown =>
      .ok (.obj [("ok", .bool false),
                 ("error", .str ("Unknown command: " ++ cmd))], st)

/-- Daemon::handle_command: the input is the result of json::parse on the
received line (Except.error carries the what() message of the thrown
exception); any exception escaping the try block — the parse failure or a
type error from an accessor — is caught and converted into the ok:false
parse-error response, leaving the state untouched. -/
def handle_command (env : Env) (st : DaemonState)
    (parsed : Except String Json) : Json × DaemonState :=
  match parsed with
  | .error e =>
    (.obj [("ok", .bool false), ("error", .str ("Parse error: " ++ e))], st)
  | .ok req =>
    match handle_inner env st req with
    | .ok r => r
    | .error e =>
      (.obj [("ok", .bool false), ("error", .str ("Parse error: " ++ e))], st)

/-- Whether a JSON response is an object carrying a boolean ok field. -/
def has_bool_ok : Json → Bool
  | .obj fields =>
    match fields.lookup "ok" with
    | some (.bool _) => true
    | _ => false
  | _ => false

end Daemon

/-! ## Invariants and helper lemmas -/

namespace ProfileManager

/-- Names recorded in the persisted metadata document. -/
def catalogNames (st : PMState) : List String :=
  st.metadata.map MetaRecord.name

/-- The catalog invariant: the active-profile pointer is either empty or
names an entry present in the catalog. -/
def ActiveValid (st : PMState) : Prop :=
  st.active_profile = "" ∨ st.active_profile ∈ catalogNames st

theorem encode_decode (a : String) (r : MetaRecord) :
    encodeProfile (decodeProfile a r) = r :=
  rfl

theorem map_name_load (st : PMState) :
    (load_metadata st).map ProfileInfo.name = catalogNames st := by
  simp [load_metadata, catalogNames, List.map_map, Function.comp,
    decodeProfile]

theorem map_name_encode (l : List ProfileInfo) :
    (l.map encodeProfile).map MetaRecord.name = l.map ProfileInfo.name := by
  simp [List.map_map, Function.comp, encodeProfile]

theorem map_name_bump (name ts : String) (l : List ProfileInfo) :
    (bumpLastUpdated name ts l).map ProfileInfo.name =
      l.map ProfileInfo.name := by
  induction l with
  | nil => rfl
  | cons p rest ih =>
    simp only [bumpLastUpdated]
    split <;> simp [ih]

theorem mem_map_name_eraseP (l : List ProfileInfo) (a name : String)
    (hne : a ≠ name) (h : a ∈ l.map ProfileInfo.name) :
    a ∈ (l.eraseP (fun q => q.name == name)).map ProfileInfo.name := by
  induction l with
  | nil => simp at h
  | cons p rest ih =>
    by_cases hp : p.name = name
    · have hdrop : (p :: rest).eraseP (fun q => q.name == name) = rest := by
        simp [List.eraseP_cons, hp]
      rw [hdrop]
      rcases (by simpa using h : a = p.name ∨ a ∈ rest.map ProfileInfo.name)
        with h1 | h1
      · exact absurd (h1.trans hp) hne
      · simpa using h1
    · have hkeep : (p :: rest).eraseP (fun q => q.name == name) =
          p :: rest.eraseP (fun q => q.name == name) := by
        simp [List.eraseP_cons, hp]
      rw [hkeep]
      rcases (by simpa using h : a = p.name ∨ a ∈ rest.map ProfileInfo.name)
        with h1 | h1
      · simp [h1]
      · simp [ih h1]

theorem save_metadata_cases (env : Env) (st : PMState)
    (ps : List ProfileInfo) :
    (save_metadata env st ps).2 = st ∨
      (save_metadata env st ps).2 =
        { st with metadata := ps.map encodeProfile } := by
  unfold save_metadata
  split
  · exact Or.inl rfl
  · split
    · exact Or.inr rfl
    · exact Or.inl rfl

end ProfileManager

namespace ProcessManager

theorem stop_fst (env : Env) (st : ProcState) : (stop env st).1 = true := by
  unfold stop
  dsimp only
  split
  · split
    · split <;> rfl
    · rfl
  · rfl

theorem stop_child_nonpos (env : Env) (st : ProcState) :
    (stop env st).2.child_pid ≤ 0 := by
  unfold stop
  dsimp only
  split
  · rename_i h
    split
    · split <;> simp
    · simp
  · rename_i h
    simpa using le_of_not_lt h

end ProcessManager

/-! ## Claims -/

section Claims

open ProfileManager ProcessManager Daemon

/-- C4: metadata round-trip.  Saving any catalog (with the profiles
directory resolvable and the filesystem write succeeding) and loading it
back reproduces the same sequence of entries on the six persisted fields
name, filename, source_url, last_updated, auto_update and
update_interval_hours (encodeProfile is exactly that six-field
projection); order is preserved, hence in particular the set of entries
is reproduced irrespective of serialization order. -/
theorem save_load_metadata_roundtrip (env : Env) (st : PMState)
    (ps : List ProfileInfo) (hdir : env.dir_ok = true)
    (hok : env.save_meta_ok = true) :
    (load_metadata (save_metadata env st ps).2).map encodeProfile =
      ps.map encodeProfile := by
  unfold save_metadata
  rw [hdir, hok]
  simp only [Bool.not_true, Bool.false_eq_true, if_false, if_true,
    load_metadata, List.map_map]
  exact List.map_congr_left fun a _ => rfl

/-- A concrete environment in which every external effect succeeds, used
to instantiate theorems with hypotheses. -/
def envAll : Env :=
  { download := fun _ => ⟨true, "", "content"⟩, now := "t0", dir_ok := true,
    mkdir_ok := true, save_file_ok := true, save_meta_ok := true,
    config_save_ok := true, fork_ok := true, new_pid := 7,
    alive := fun _ => true, kill_term_ok := true, graceful_exit := true,
    reload_ok := true, api_ready := true }

/-- The empty profile-store state: no metadata document, no files, no
active profile. -/
def stEmpty : PMState := ⟨[], [], ""⟩

/-- Witness for C4 at a concrete one-entry catalog. -/
theorem save_load_metadata_roundtrip_witness :
    envAll.dir_ok = true ∧ envAll.save_meta_ok = true ∧
    (load_metadata (save_metadata envAll stEmpty
        [⟨"a", "a.yaml", "u", "t1", true, 24, false⟩]).2).map encodeProfile =
      [⟨"a", "a.yaml", "u", "t1", true, 24⟩] :=
  ⟨rfl, rfl, save_load_metadata_roundtrip envAll stEmpty
    [⟨"a", "a.yaml", "u", "t1", true, 24, false⟩] rfl rfl⟩

/-- Derivation of the filename root exactly as the specification words it:
remove every character that is not alphanumeric and not - or _, falling
back to the fixed placeholder when the result is empty. -/
def claimed_sanitize (name : String) : String :=
  let r := name.data.filter (fun c => c.isAlphanum || c == '-' || c == '_')
  if r.isEmpty then "profile" else String.mk r

/-- C6 counterexample: on the name consisting of a single space the code
maps the space to an underscore and returns "_", while the claimed
derivation (strip all characters outside alphanumeric, -, _) would strip
it, reach the empty string and return the placeholder "profile". -/
theorem sanitize_filename_space_counterexample :
    sanitize_filename " " = "_" ∧ claimed_sanitize " " = "profile" ∧
      sanitize_filename " " ≠ claimed_sanitize " " :=
  ⟨by decide, by decide, by decide⟩

/-- Character mapping of the amended derivation: alphanumeric characters
and - and _ are kept, a space becomes an underscore, every other character
is removed. -/
def amended_char (c : Char) : Option Char :=
  if c.isAlphanum || c == '-' || c == '_' then some c
  else if c == ' ' then some '_' else none

/-- The amended derivation of the filename root: map each character
through amended_char, with the placeholder fallback for an empty result. -/
def amended_sanitize (name : String) : String :=
  let r := name.data.filterMap amended_char
  if r.isEmpty then "profile" else String.mk r

theorem sanitize_chars_eq_filterMap (l : List Char) :
    sanitize_chars l = l.filterMap amended_char := by
  induction l with
  | nil => rfl
  | cons c rest ih =>
    by_cases hA : (c.isAlphanum || c == '-' || c == '_') = true
    · simp [sanitize_chars, amended_char, hA, ih]
    · by_cases hs : (c == ' ') = true
      · simp [sanitize_chars, amended_char, hA, hs, ih]
      · simp [sanitize_chars, amended_char, hA, hs, ih]

/-- C6 amended: for every profile name the on-disk filename root keeps
alphanumeric characters and - and _, converts each space to an
underscore, removes every other character, and falls back to the fixed
placeholder "profile" when the result is empty; the derivation is
deterministic (equal names always yield equal filename roots). -/
theorem sanitize_filename_amended (name : String) :
    sanitize_filename name = amended_sanitize name ∧
      ∀ m : String, name = m →
        sanitize_filename name = sanitize_filename m := by
  refine ⟨?_, fun m h => by rw [h]⟩
  unfold sanitize_filename amended_sanitize
  rw [sanitize_chars_eq_filterMap]

/-- Witness for C6 amended at the concrete name with a space and a bang. -/
theorem sanitize_filename_amended_witness :
    (sanitize_filename "a b!" = amended_sanitize "a b!" ∧
      sanitize_filename "a b!" = sanitize_filename "a b!") ∧
      sanitize_filename "a b!" = "a_b" :=
  ⟨⟨(sanitize_filename_amended "a b!").1,
    (sanitize_filename_amended "a b!").2 "a b!" rfl⟩, by decide⟩

/-- C2: switch_active is atomic on error.  Whenever the catalog lookup
finds no entry for the name, or finds one whose on-disk file is missing,
switch_active returns failure and leaves the whole state — in particular
the stored active-profile pointer — unchanged, because both checks precede
any mutation. -/
theorem switch_active_error_atomic (env : Env) (st : PMState)
    (name : String)
    (h : ∀ p, (load_metadata st).find? (fun q => q.name == name) = some p →
      fileExists st p.filename = false) :
    switch_active env st name = (false, st) := by
  unfold switch_active
  dsimp only
  rcases hf : (load_metadata st).find? (fun q => q.name == name) with _ | p
  · rw [hf]
  · rw [hf]
    simp [h p hf]

/-- One-entry catalog whose profile file is absent from the profiles
directory. -/
def stOneMissing : PMState :=
  ⟨[⟨"a", "a.yaml", "u", "t", true, 24⟩], [], ""⟩

/-- Witness for C2: switching to the entry whose file is missing fails and
leaves the state untouched. -/
theorem switch_active_error_atomic_witness :
    switch_active envAll stOneMissing "a" = (false, stOneMissing) :=
  switch_active_error_atomic envAll stOneMissing "a" (by
    intro p hp
    have hfind : (load_metadata stOneMissing).find? (fun q => q.name == "a")
        = some (decodeProfile "" ⟨"a", "a.yaml", "u", "t", true, 24⟩) := rfl
    rw [hfind] at hp
    rw [← Option.some.inj hp]
    rfl)

/-- C3: add_profile rejects an empty name, an empty URL, and a duplicate
name (case-sensitive exact match), each with the corresponding error; in
every rejected case the returned state is exactly the input state, so the
catalog gains no duplicate entry and no profile file is written or
overwritten — the duplicate check precedes the download and every file
write. -/
theorem add_profile_rejects_invalid (env : Env) (st : PMState)
    (name url : String) :
    (name = "" → add_profile env st name url =
      (⟨false, "Profile name cannot be empty"⟩, st)) ∧
    (name ≠ "" → url = "" → add_profile env st name url =
      (⟨false, "URL cannot be empty"⟩, st)) ∧
    (name ≠ "" → url ≠ "" → (∃ p, p ∈ load_metadata st ∧ p.name = name) →
      add_profile env st name url =
        (⟨false, "Profile already exists: " ++ name⟩, st)) := by
  refine ⟨?_, ?_, ?_⟩
  · intro h
    subst h
    rfl
  · intro hn hu
    subst hu
    unfold add_profile
    simp [beq_eq_false_iff_ne.mpr hn]
  · rintro hn hu ⟨p, hp, hpname⟩
    unfold add_profile
    have h3 : (load_metadata st).any (fun p => p.name == name) = true :=
      List.any_eq_true.mpr ⟨p, hp, by simp [hpname]⟩
    simp [beq_eq_false_iff_ne.mpr hn, beq_eq_false_iff_ne.mpr hu, h3]

/-- Witness for C3 at the three concrete rejected inputs. -/
theorem add_profile_rejects_invalid_witness :
    add_profile envAll stEmpty "" "u" =
      (⟨false, "Profile name cannot be empty"⟩, stEmpty) ∧
    add_profile envAll stEmpty "a" "" =
      (⟨false, "URL cannot be empty"⟩, stEmpty) ∧
    add_profile envAll stOneMissing "a" "u" =
      (⟨false, "Profile already exists: a"⟩, stOneMissing) :=
  ⟨(add_profile_rejects_invalid envAll stEmpty "" "u").1 rfl,
   (add_profile_rejects_invalid envAll stEmpty "a" "").2.1 (by decide) rfl,
   (add_profile_rejects_invalid envAll stOneMissing "a" "u").2.2 (by decide)
     (by decide)
     ⟨decodeProfile "" ⟨"a", "a.yaml", "u", "t", true, 24⟩, by decide, rfl⟩⟩

/-- C8: ProcessManager::stop always returns success, and on a non-running
process it is idempotent: two consecutive stops (under any observations of
the process table) both return true and leave is_running false. -/
theorem stop_twice_nonrunning (env1 env2 : Env) (st : ProcState)
    (_h : is_running env1 st = false) :
    (stop env1 st).1 = true ∧ (stop env2 (stop env1 st).2).1 = true ∧
      is_running env2 (stop env2 (stop env1 st).2).2 = false := by
  refine ⟨stop_fst env1 st, stop_fst env2 _, ?_⟩
  unfold is_running
  rw [if_pos (stop_child_nonpos env2 (stop env1 st).2)]

/-- The supervisor state with no child process tracked. -/
def procEmpty : ProcState := {}

/-- Witness for C8 on the concrete no-child state. -/
theorem stop_twice_nonrunning_witness :
    is_running envAll procEmpty = false ∧
    (stop envAll procEmpty).1 = true ∧
      (stop envAll (stop envAll procEmpty).2).1 = true ∧
      is_running envAll (stop envAll (stop envAll procEmpty).2).2 = false :=
  ⟨by decide, stop_twice_nonrunning envAll envAll procEmpty (by decide)⟩

theorem mem_dueLoop (parseTime : String → Option Int) (now : Int)
    (l : List ProfileInfo) (n : String) :
    n ∈ dueLoop parseTime now l ↔
      ∃ p, p ∈ l ∧ p.name = n ∧ p.auto_update = true ∧ p.source_url ≠ "" ∧
        (parseTime p.last_updated = none ∨
          ∃ t, parseTime p.last_updated = some t ∧
            3600 * p.update_interval_hours ≤ now - t) := by
  induction l with
  | nil => simp [dueLoop]
  | cons p rest ih =>
    rw [dueLoop]
    by_cases hskip : (!p.auto_update || p.source_url == "") = true
    · have hps : ¬(p.auto_update = true ∧ p.source_url ≠ "") := by
        rcases Bool.or_eq_true_iff.mp hskip with h1 | h1
        · exact fun hc => by simp [hc.1] at h1
        · exact fun hc => hc.2 (by simpa using h1)
      rw [if_pos hskip, ih]
      constructor
      · rintro ⟨q, hq, h2⟩
        exact ⟨q, List.mem_cons_of_mem _ hq, h2⟩
      · rintro ⟨q, hq, hname, hau, hurl, hdue⟩
        rcases List.mem_cons.mp hq with rfl | hq2
        · exact absurd ⟨hau, hurl⟩ hps
        · exact ⟨q, hq2, hname, hau, hurl, hdue⟩
    · have hau : p.auto_update = true ∧ p.source_url ≠ "" := by
        constructor
        · by_contra hc
          exact hskip (by simp [Bool.eq_false_iff.mpr hc])
        · intro hc
          exact hskip (by simp [hc])
      rw [if_neg hskip]
      cases hpt : parseTime p.last_updated with
      | none =>
        rw [List.mem_cons, ih]
        constructor
        · rintro (rfl | ⟨q, hq, h2⟩)
          · exact ⟨p, List.mem_cons_self p rest, rfl, hau.1, hau.2,
              Or.inl hpt⟩
          · exact ⟨q, List.mem_cons_of_mem _ hq, h2⟩
        · rintro ⟨q, hq, hname, hau2, hurl2, hdue⟩
          rcases List.mem_cons.mp hq with rfl | hq2
          · exact Or.inl hname.symm
          · exact Or.inr ⟨q, hq2, hname, hau2, hurl2, hdue⟩
      | some t =>
        dsimp only
        by_cases hle : 3600 * p.update_interval_hours ≤ now - t
        · rw [if_pos hle, List.mem_cons, ih]
          constructor
          · rintro (rfl | ⟨q, hq, h2⟩)
            · exact ⟨p, List.mem_cons_self p rest, rfl, hau.1, hau.2,
                Or.inr ⟨t, hpt, hle⟩⟩
            · exact ⟨q, List.mem_cons_of_mem _ hq, h2⟩
          · rintro ⟨q, hq, hname, hau2, hurl2, hdue⟩
            rcases List.mem_cons.mp hq with rfl | hq2
            · exact Or.inl hname.symm
            · exact Or.inr ⟨q, hq2, hname, hau2, hurl2, hdue⟩
        · rw [if_neg hle, ih]
          constructor
          · rintro ⟨q, hq, h2⟩
            exact ⟨q, List.mem_cons_of_mem _ hq, h2⟩
          · rintro ⟨q, hq, hname, hau2, hurl2, hdue⟩
            rcases List.mem_cons.mp hq with rfl | hq2
            · rcases hdue with hnone | ⟨t2, ht2, hle2⟩
              · rw [hpt] at hnone
                cases hnone
              · rw [hpt] at ht2
                cases Option.some.inj ht2
                exact absurd hle2 hle
            · exact ⟨q, hq2, hname, hau2, hurl2, hdue⟩

/-- C5: profiles_due_for_update returns exactly the names of the catalog
entries with auto_update enabled and a non-empty source URL whose
last_updated either fails to parse (treated as due) or lies at least
update_interval_hours in the past — difftime(now, last) / 3600.0 >=
interval is exactly now - last >= 3600 * interval on integer seconds.  In
particular an unparseable-timestamp entry with auto_update and a URL is
returned, and an entry whose last_updated parses to the current instant
with a 24-hour interval is omitted. -/
theorem profiles_due_for_update_exact (parseTime : String → Option Int)
    (now : Int) (st : PMState) (n : String) :
    n ∈ profiles_due_for_update parseTime now st ↔
      ∃ p, p ∈ load_metadata st ∧ p.name = n ∧ p.auto_update = true ∧
        p.source_url ≠ "" ∧
        (parseTime p.last_updated = none ∨
          ∃ t, parseTime p.last_updated = some t ∧
            3600 * p.update_interval_hours ≤ now - t) :=
  mem_dueLoop parseTime now (load_metadata st) n

theorem activeValid_save_append (env : Env) (st : PMState)
    (files : List (String × String)) (info : ProfileInfo)
    (h : ActiveValid st) :
    ActiveValid (save_metadata env { st with files := files }
      (load_metadata st ++ [info])).2 := by
  rcases save_metadata_cases env { st with files := files }
      (load_metadata st ++ [info]) with heq | heq <;> rw [heq]
  · exact h
  · rcases h with h1 | h1
    · exact Or.inl h1
    · refine Or.inr ?_
      show st.active_profile ∈
        ((load_metadata st ++ [info]).map encodeProfile).map MetaRecord.name
      rw [map_name_encode, List.map_append, map_name_load]
      exact List.mem_append_left _ h1

theorem activeValid_add (env : Env) (st : PMState) (name url : String)
    (h : ActiveValid st) : ActiveValid (add_profile env st name url).2 := by
  unfold add_profile
  dsimp only
  split
  · exact h
  split
  · exact h
  split
  · exact h
  split
  · exact h
  split
  · exact h
  split
  · exact h
  split
  · exact h
  split
  all_goals
    rename_i st2 heq
    have h2 := activeValid_save_append env st
      (writeFile st.files (sanitize_filename name ++ ".yaml")
        (env.download url).content)
      ⟨name, sanitize_filename name ++ ".yaml", url, env.now, true, 24, false⟩ h
    rw [heq] at h2
    exact h2

theorem activeValid_save_bump (env : Env) (st : PMState)
    (files : List (String × String)) (ts name : String)
    (h : ActiveValid st) :
    ActiveValid (save_metadata env { st with files := files }
      (bumpLastUpdated name ts (load_metadata st))).2 := by
  rcases save_metadata_cases env { st with files := files }
      (bumpLastUpdated name ts (load_metadata st)) with heq | heq <;> rw [heq]
  · exact h
  · rcases h with h1 | h1
    · exact Or.inl h1
    · refine Or.inr ?_
      show st.active_profile ∈
        ((bumpLastUpdated name ts (load_metadata st)).map
          encodeProfile).map MetaRecord.name
      rw [map_name_encode, map_name_bump, map_name_load]
      exact h1

theorem activeValid_update (env : Env) (st : PMState) (name : String)
    (h : ActiveValid st) : ActiveValid (update_profile env st name).2 := by
  unfold update_profile
  dsimp only
  rcases hf : (load_metadata st).find? (fun p => p.name == name) with _ | p
  · rw [hf]
    exact h
  · rw [hf]
    dsimp only
    split
    · exact h
    split
    · exact h
    split
    all_goals
      rename_i st2 heq
      have h2 := activeValid_save_bump env st
        (writeFile st.files p.filename (env.download p.source_url).content)
        env.now name h
      rw [heq] at h2
      exact h2

theorem activeValid_delete (env : Env) (st : PMState) (name : String)
    (h : ActiveValid st) : ActiveValid (delete_profile env st name).2 := by
  unfold delete_profile
  dsimp only
  rcases hf : (load_metadata st).find? (fun p => p.name == name) with _ | p
  · rw [hf]
    exact h
  · rw [hf]
    dsimp only
    rcases save_metadata_cases env
        { st with files := removeFile st.files p.filename }
        ((load_metadata st).eraseP (fun q => q.name == name)) with heq | heq <;>
      rw [heq]
    · by_cases hac : (st.active_profile == name) = true
      · rw [if_pos hac]
        exact Or.inl rfl
      · rw [if_neg hac]
        exact h
    · by_cases hac : (st.active_profile == name) = true
      · rw [if_pos hac]
        exact Or.inl rfl
      · rw [if_neg hac]
        rcases h with h1 | h1
        · exact Or.inl h1
        · refine Or.inr ?_
          show st.active_profile ∈
            (((load_metadata st).eraseP (fun q => q.name == name)).map
              encodeProfile).map MetaRecord.name
          rw [map_name_encode]
          refine mem_map_name_eraseP _ _ _ ?_ ?_
          · exact fun hc => hac (by simp [hc])
          · rw [map_name_load]
            exact h1

theorem activeValid_switch (env : Env) (st : PMState) (name : String)
    (h : ActiveValid st) : ActiveValid (switch_active env st name).2 := by
  unfold switch_active
  dsimp only
  rcases hf : (load_metadata st).find? (fun p => p.name == name) with _ | p
  · rw [hf]
    exact h
  · rw [hf]
    dsimp only
    split
    · exact h
    · refine Or.inr ?_
      have hmem := List.mem_of_find?_eq_some hf
      have hname : p.name = name := by simpa using List.find?_some hf
      have hm : name ∈ (load_metadata st).map ProfileInfo.name :=
        List.mem_map.mpr ⟨p, hmem, hname⟩
      rw [map_name_load] at hm
      exact hm

theorem delete_clears_active (env : Env) (st : PMState) (name : String)
    (hfind : ((load_metadata st).find? (fun q => q.name == name)).isSome
      = true)
    (hact : st.active_profile = name) :
    (delete_profile env st name).2.active_profile = "" := by
  unfold delete_profile
  dsimp only
  rcases hf : (load_metadata st).find? (fun p => p.name == name) with _ | p
  · rw [hf] at hfind
    simp at hfind
  · rw [hf]
    dsimp only
    rcases save_metadata_cases env
        { st with files := removeFile st.files p.filename }
        ((load_metadata st).eraseP (fun q => q.name == name)) with heq | heq <;>
      rw [heq] <;> rw [if_pos (by simp [hact])]

/-- C1: the catalog invariant.  Starting from any state in which the
active pointer is empty or names a catalog entry, each single
ProfileManager operation — add_profile, update_profile, delete_profile,
switch_active — yields a state satisfying the same invariant; moreover
delete_profile clears the pointer when it referenced the deleted
profile, and switch_active only commits a pointer it found in the
catalog. -/
theorem profile_ops_preserve_invariant (env : Env) (st : PMState)
    (name url : String) (h : ActiveValid st) :
    ActiveValid (add_profile env st name url).2 ∧
    ActiveValid (update_profile env st name).2 ∧
    ActiveValid (delete_profile env st name).2 ∧
    ActiveValid (switch_active env st name).2 ∧
    (st.active_profile = name →
      ((load_metadata st).find? (fun q => q.name == name)).isSome = true →
      (delete_profile env st name).2.active_profile = "") :=
  ⟨activeValid_add env st name url h, activeValid_update env st name h,
   activeValid_delete env st name h, activeValid_switch env st name h,
   fun hact hfind => delete_clears_active env st name hfind hact⟩

/-- One-entry catalog whose file is present and whose entry is active. -/
def stActive : PMState :=
  ⟨[⟨"a", "a.yaml", "u", "t", true, 24⟩], [("a.yaml", "c")], "a"⟩

theorem stActive_valid : ActiveValid stActive :=
  Or.inr (by decide)

/-- Witness for C1 on the concrete active one-entry catalog, including the
delete branch that clears the active pointer. -/
theorem profile_ops_preserve_invariant_witness :
    ActiveValid stActive ∧
    ActiveValid (delete_profile envAll stActive "a").2 ∧
    ActiveValid (switch_active envAll stActive "a").2 ∧
    (delete_profile envAll stActive "a").2.active_profile = "" :=
  ⟨stActive_valid,
   (profile_ops_preserve_invariant envAll stActive "a" "u"
     stActive_valid).2.2.1,
   (profile_ops_preserve_invariant envAll stActive "a" "u"
     stActive_valid).2.2.2.1,
   (profile_ops_preserve_invariant envAll stActive "a" "u"
     stActive_valid).2.2.2.2 rfl (by decide)⟩

theorem filter_name_encode_decode_nil (a name : String)
    (l : List ProfileInfo) (h : ∀ p ∈ l, p.name ≠ name) :
    ((l.map encodeProfile).map (decodeProfile a)).filter
      (fun q => q.name == name) = [] := by
  induction l with
  | nil => rfl
  | cons p rest ih =>
    simp only [List.map_cons, List.filter_cons]
    have hp : ((decodeProfile a (encodeProfile p)).name == name) = false := by
      simpa using h p (List.mem_cons_self p rest)
    simp only [hp, Bool.false_eq_true, if_false]
    exact ih fun q hq => h q (List.mem_cons_of_mem _ hq)

/-- C9: for a non-empty name not yet in the catalog and a non-empty URL,
with the download and the filesystem writes succeeding, add_profile
succeeds and the immediately following list_profiles contains exactly one
entry with that name, carrying auto_update = true,
update_interval_hours = 24, source_url = the given URL and last_updated =
the current timestamp taken at add time. -/
theorem add_then_list (env : Env) (st : PMState) (name url : String)
    (hn : name ≠ "") (hu : url ≠ "")
    (hdup : ∀ p ∈ load_metadata st, p.name ≠ name)
    (hdl : (env.download url).success = true)
    (hdir : env.dir_ok = true) (hmk : env.mkdir_ok = true)
    (hsf : env.save_file_ok = true) (hsm : env.save_meta_ok = true) :
    (add_profile env st name url).1.success = true ∧
    ∃ p : ProfileInfo,
      (list_profiles (add_profile env st name url).2).filter
        (fun q => q.name == name) = [p] ∧
      p.name = name ∧ p.auto_update = true ∧ p.update_interval_hours = 24 ∧
      p.last_updated = env.now ∧ p.source_url = url := by
  have hany : (load_metadata st).any (fun p => p.name == name) = false := by
    rw [List.any_eq_false]
    intro p hp
    simp [hdup p hp]
  have hres : add_profile env st name url =
      (⟨true, ""⟩, { st with
        files := writeFile st.files (sanitize_filename name ++ ".yaml")
          (env.download url).content,
        metadata := (load_metadata st ++
          [(⟨name, sanitize_filename name ++ ".yaml", url, env.now, true, 24,
            false⟩ : ProfileInfo)]).map encodeProfile }) := by
    unfold add_profile save_metadata
    simp [beq_eq_false_iff_ne.mpr hn, beq_eq_false_iff_ne.mpr hu, hany, hdl,
      hdir, hmk, hsf, hsm]
  rw [hres]
  refine ⟨rfl, ?_⟩
  refine ⟨⟨name, sanitize_filename name ++ ".yaml", url, env.now, true, 24,
    name == st.active_profile⟩, ?_, rfl, rfl, rfl, rfl, rfl⟩
  show (((load_metadata st ++
      [(⟨name, sanitize_filename name ++ ".yaml", url, env.now, true, 24,
        false⟩ : ProfileInfo)]).map encodeProfile).map
      (decodeProfile st.active_profile)).filter (fun q => q.name == name) = _
  rw [List.map_append, List.map_append, List.filter_append,
    filter_name_encode_decode_nil st.active_profile name
      (load_metadata st) hdup]
  simp [decodeProfile, encodeProfile]

/-- Witness for C9: adding a fresh profile to the empty store under the
all-succeeding environment. -/
theorem add_then_list_witness :
    (add_profile envAll stEmpty "a" "u").1.success = true ∧
    ∃ p : ProfileInfo,
      (list_profiles (add_profile envAll stEmpty "a" "u").2).filter
        (fun q => q.name == "a") = [p] ∧
      p.name = "a" ∧ p.auto_update = true ∧ p.update_interval_hours = 24 ∧
      p.last_updated = envAll.now ∧ p.source_url = "u" :=
  add_then_list envAll stEmpty "a" "u" (by decide) (by decide)
    (by intro p hp; simp [load_metadata, stEmpty] at hp) rfl rfl rfl rfl rfl

theorem handle_inner_ok (env : Env) (st : DaemonState) (req : Json)
    (r : Json × DaemonState) (h : handle_inner env st req = .ok r) :
    has_bool_ok r.1 = true := by
  unfold handle_inner at h
  repeat' split at h
  all_goals first
    | exact Except.noConfusion h
    | (cases h; rfl)

/-- C7: the command boundary is total and non-throwing.  For every parse
outcome of the received line the handler returns a JSON object carrying a
boolean ok field, and for every failed parse (any exception message e) it
returns exactly the ok:false response whose error string reports the
parse failure, with the daemon state untouched. -/
theorem handle_command_safe (env : Env) (st : DaemonState)
    (parsed : Except String Json) (e : String) :
    has_bool_ok (handle_command env st parsed).1 = true ∧
    handle_command env st (Except.error e) =
      (.obj [("ok", .bool false),
             ("error", .str ("Parse error: " ++ e))], st) := by
  constructor
  · unfold handle_command
    split
    · rfl
    · split
      · rename_i r heq
        exact handle_inner_ok env st _ r heq
      · rfl
  · rfl

/-- C10: the mihomo_stop command always replies ok:true, whatever the
state of the supervised process: ProcessManager::stop returns true on
every control path, so the error branch of the handler, replying that the
stop failed, is
unreachable. -/
theorem mihomo_stop_always_ok (env : Env) (st : DaemonState) :
    (handle_command env st
      (.ok (.obj [("cmd", .str "mihomo_stop")]))).1 =
      Json.obj [("ok", .bool true)] ∧
    (stop env st.proc).1 = true := by
  refine ⟨?_, stop_fst env st.proc⟩
  have hs := stop_fst env st.proc
  rcases hp : stop env st.proc with ⟨b, proc1⟩
  rw [hp] at hs
  cases hs
  unfold handle_command handle_inner
  dsimp only
  rw [show jgetStr (Json.obj [("cmd", Json.str "mihomo_stop")]) "cmd" ""
      = Except.ok "mihomo_stop" from rfl]
  dsimp only
  rw [show parseCmd "mihomo_stop" = Cmd.mihomo_stop from rfl]
  dsimp only
  rw [hp]
  rfl

end Claims

end ClashTui
